import Mathlib

/-!
Shallow embedding of the C matrix library (src/matrix.c): the matrix data
model, the arithmetic operations, the allocation/lifecycle layer, a heap
model for the pointer-level frame properties, and the text codec
(matrix_dump_file / matrix_allocate_and_init_file).

Machine integers are modelled as Int (signed overflow is undefined in the
source, and every claim is stated for moderate values); dimensions are Nat.
-/

namespace MatrixC

/-- Value-level matrix: the matrix_t struct of the source once its content
has been successfully allocated, with rows, columns and the 2-D content. -/
structure Matrix where
  rows : Nat
  columns : Nat
  content : List (List Int)
deriving DecidableEq

/-- Read access m.content[i][j] of the source; out-of-range reads default
(such reads do not occur on well-formed allocated matrices). -/
def cell (m : Matrix) (i j : Nat) : Int := (m.content.getD i []).getD j 0

/-- Write access m.content[i][j] = v of the source, as a functional update. -/
def setCell (m : Matrix) (i j : Nat) (v : Int) : Matrix :=
  { m with content := m.content.set i ((m.content.getD i []).set j v) }

/-- Content produced by a doubly nested loop that writes f i j to every
cell (i, j) of a rows-by-columns matrix, each cell exactly once. -/
def mkContent (r c : Nat) (f : Nat → Nat → Int) : List (List Int) :=
  (List.range r).map (fun i => (List.range c).map (fun j => f i j))

/-- matrix_init_n: the double loop writes n into every cell of the
allocated rows-by-columns storage. -/
def matrix_init_n (m : Matrix) (n : Int) : Matrix :=
  { m with content := mkContent m.rows m.columns (fun _ _ => n) }

/-- matrix_init_zeros from the source. -/
def matrix_init_zeros (m : Matrix) : Matrix := matrix_init_n m 0

/-- Diagonal loop of matrix_init_identity: zero the matrix, then write 1
into cell (i, i) for each i below n. -/
def diagFold (m : Matrix) (n : Nat) : Matrix :=
  (List.range n).foldl (fun mm i => setCell mm i i 1) (matrix_init_zeros m)

/-- matrix_init_identity from the source: reject non-square matrices with
return code -1 leaving m untouched, otherwise zero the matrix and then set
each diagonal cell to 1 in a loop over the rows. -/
def matrix_init_identity (m : Matrix) : Int × Matrix :=
  if m.rows != m.columns then (-1, m)
  else (0, diagFold m m.rows)

/-- matrix_init_rand from the source, with the pseudo-random stream made
explicit as an oracle giving the value of the k-th rand() call; the check
val_min > val_max comes before any write. -/
def matrix_init_rand (rand : Nat → Nat) (m : Matrix) (val_min val_max : Int) : Int × Matrix :=
  if val_min > val_max then (-1, m)
  else (0, { m with content := (mkContent m.rows m.columns
      (fun i j => val_min + (rand (i * m.columns + j) : Int) % (val_max - val_min + 1))) })

/-- matrix_equal from the source: false on any dimension mismatch,
otherwise an element-by-element comparison over the declared dimensions. -/
def matrix_equal (m1 m2 : Matrix) : Bool :=
  if m1.rows != m2.rows || m1.columns != m2.columns then false
  else (List.range m1.rows).all (fun i =>
    (List.range m1.columns).all (fun j => cell m1 i j == cell m2 i j))

/-- matrix_sum from the source, with allocation of the result assumed to
succeed (none models the dimension-error return -1, which the source takes
before touching the result). -/
def matrix_sum (m1 m2 : Matrix) : Option Matrix :=
  if m1.rows != m2.rows || m1.columns != m2.columns then none
  else some ⟨m1.rows, m1.columns, mkContent m1.rows m1.columns
    (fun i j => cell m1 i j + cell m2 i j)⟩

/-- matrix_scalar_product from the source, allocation assumed to succeed. -/
def matrix_scalar_product (m : Matrix) (scalar : Int) : Matrix :=
  ⟨m.rows, m.columns, mkContent m.rows m.columns (fun i j => cell m i j * scalar)⟩

/-- matrix_transposition from the source, allocation assumed to succeed:
the loop writes result.content[j][i] = m.content[i][j] for every i < rows
and j < columns, covering each result cell exactly once. -/
def matrix_transposition (m : Matrix) : Matrix :=
  ⟨m.columns, m.rows, mkContent m.columns m.rows (fun j i => cell m i j)⟩

/-- matrix_product from the source: dimension check first (none models the
-1 return), then each result cell starts at 0 and accumulates
m1[i][k] * m2[k][j] over k in increasing order, as a left fold. -/
def matrix_product (m1 m2 : Matrix) : Option Matrix :=
  if m1.columns != m2.rows then none
  else some ⟨m1.rows, m2.columns, mkContent m1.rows m2.columns
    (fun i j => (List.range m1.columns).foldl
      (fun acc k => acc + cell m1 i k * cell m2 k j) 0)⟩

/-!
Allocation and lifecycle layer: matrix_allocate and matrix_free operate on
the raw matrix_t struct, whose content pointer can be null, point to live
storage, or dangle (freed but not reset, as the cleanup path of
matrix_allocate leaves it).
-/

/-- State of the content pointer of a matrix_t struct. -/
inductive Ptr where
  | null : Ptr
  | valid (data : List (List Int)) : Ptr
  | dangling : Ptr
deriving DecidableEq

/-- Raw matrix_t struct for the allocation layer. -/
structure matrix_t where
  rows : Nat
  columns : Nat
  content : Ptr
deriving DecidableEq

/-- matrix_allocate from the source. The alloc oracle says whether the k-th
malloc of this call succeeds (call 0 is the row-pointer array, call i + 1 is
row i); junk gives the indeterminate cell contents. The source first stores
rows and columns into the struct, then mallocs the row-pointer array
(returning -1 with a null content on failure), then mallocs each row; on a
row failure it frees every earlier row and the row-pointer array, leaving
the freed pointer in the struct, and returns -1. -/
def matrix_allocate (alloc : Nat → Bool) (junk : Nat → Nat → Int)
    (rows columns : Nat) : Int × matrix_t :=
  if !(alloc 0) then (-1, ⟨rows, columns, Ptr.null⟩)
  else if (List.range rows).all (fun i => alloc (i + 1)) then
    (0, ⟨rows, columns, Ptr.valid (mkContent rows columns junk)⟩)
  else (-1, ⟨rows, columns, Ptr.dangling⟩)

/-- matrix_free from the source: with a null content it skips every free and
just zeroes the dimensions; with live storage it frees each row and the
row-pointer array, nulls the pointer and zeroes the dimensions; with a
dangling content it calls free on already-freed memory, which is undefined
behaviour, modelled as none. -/
def matrix_free (m : matrix_t) : Option matrix_t :=
  match m.content with
  | Ptr.null => some ⟨0, 0, Ptr.null⟩
  | Ptr.valid _ => some ⟨0, 0, Ptr.null⟩
  | Ptr.dangling => none

/-!
Heap model for the pointer-level frame properties: the arithmetic functions
of the source receive their operands and their result slot by pointer, and
all stores go through the result pointer. Pointers are names (Nat) and a
heap maps each name to the matrix_t value it points at (here in its
value-level form, since these operations only run on allocated matrices).
-/

/-- Heap mapping pointer names to matrix values. -/
abbrev Heap := Nat → Matrix

/-- Store through pointer p. -/
def hset (h : Heap) (p : Nat) (m : Matrix) : Heap :=
  fun q => if q = p then m else h q

/-- Fresh allocation of an indeterminate rows-by-columns matrix value
(matrix_allocate on the result slot, assumed to succeed). -/
def matrix_alloc_junk (junk : Nat → Nat → Int) (rows columns : Nat) : Matrix :=
  ⟨rows, columns, mkContent rows columns junk⟩

/-- matrix_sum at the heap level: dimension check reading the operands,
early -1 return leaving the heap untouched, else allocate the result slot
and run the double loop, each iteration reading the operands and storing
one cell through the result pointer. -/
def matrix_sum_h (junk : Nat → Nat → Int) (h : Heap) (p1 p2 pr : Nat) : Int × Heap :=
  if (h p1).rows != (h p2).rows || (h p1).columns != (h p2).columns then (-1, h)
  else
    let h0 := hset h pr (matrix_alloc_junk junk (h p1).rows (h p1).columns)
    (0, (List.range (h p1).rows).foldl (fun ha i =>
      (List.range (h p1).columns).foldl (fun hb j =>
        hset hb pr (setCell (hb pr) i j (cell (hb p1) i j + cell (hb p2) i j))) ha) h0)

/-- matrix_scalar_product at the heap level. -/
def matrix_scalar_product_h (junk : Nat → Nat → Int) (h : Heap) (p : Nat)
    (scalar : Int) (pr : Nat) : Int × Heap :=
  let h0 := hset h pr (matrix_alloc_junk junk (h p).rows (h p).columns)
  (0, (List.range (h p).rows).foldl (fun ha i =>
    (List.range (h p).columns).foldl (fun hb j =>
      hset hb pr (setCell (hb pr) i j (cell (hb p) i j * scalar))) ha) h0)

/-- matrix_transposition at the heap level. -/
def matrix_transposition_h (junk : Nat → Nat → Int) (h : Heap) (p pr : Nat) : Int × Heap :=
  let h0 := hset h pr (matrix_alloc_junk junk (h p).columns (h p).rows)
  (0, (List.range (h p).rows).foldl (fun ha i =>
    (List.range (h p).columns).foldl (fun hb j =>
      hset hb pr (setCell (hb pr) j i (cell (hb p) i j))) ha) h0)

/-- matrix_product at the heap level: dimension check first with an early
-1 return, else allocate, then for each result cell store 0 and accumulate
the k-indexed products in increasing k order through the result pointer. -/
def matrix_product_h (junk : Nat → Nat → Int) (h : Heap) (p1 p2 pr : Nat) : Int × Heap :=
  if (h p1).columns != (h p2).rows then (-1, h)
  else
    let h0 := hset h pr (matrix_alloc_junk junk (h p1).rows (h p2).columns)
    (0, (List.range (h p1).rows).foldl (fun ha i =>
      (List.range (h p2).columns).foldl (fun hb j =>
        (List.range (h p1).columns).foldl (fun hc k =>
          hset hc pr (setCell (hc pr) i j
            (cell (hc pr) i j + cell (hc p1) i k * cell (hc p2) k j)))
          (hset hb pr (setCell (hb pr) i j 0))) ha) h0)

/-- matrix_init_identity at the heap level: the square check reads the
matrix and returns -1 before any write. -/
def matrix_init_identity_h (h : Heap) (p : Nat) : Int × Heap :=
  if (h p).rows != (h p).columns then (-1, h)
  else (0, hset h p (matrix_init_identity (h p)).2)

/-- matrix_init_rand at the heap level: the range check returns -1 before
any write. -/
def matrix_init_rand_h (rand : Nat → Nat) (h : Heap) (p : Nat)
    (val_min val_max : Int) : Int × Heap :=
  if val_min > val_max then (-1, h)
  else (0, hset h p (matrix_init_rand rand (h p) val_min val_max).2)

/-!
Text codec. A file is a list of lines as fgets delivers them: each line is
the list of its characters, including the terminating newline when present.
Tokenization models strtok_r with the single delimiter " ": maximal runs of
non-space characters (a run containing the newline character is a token).
-/

/-- Tokenizer accumulator: cur holds the current token reversed. -/
def tokensAux : List Char → List Char → List (List Char)
  | [], cur => if cur = [] then [] else [cur.reverse]
  | c :: cs, cur =>
    if c = ' ' then (if cur = [] then tokensAux cs [] else cur.reverse :: tokensAux cs [])
    else tokensAux cs (c :: cur)

/-- Tokens of a line under strtok_r with delimiter " ". -/
def tokens (l : List Char) : List (List Char) := tokensAux l []

/-- Whitespace characters skipped by atoi. -/
def isSpaceChar (c : Char) : Bool :=
  c = ' ' || c = '\t' || c = '\n' || c = '\x0b' || c = '\x0c' || c = '\r'

/-- Decimal digits folded left to right, stopping at the first non-digit. -/
def digitsVal : List Char → Int → Int
  | [], acc => acc
  | c :: cs, acc =>
    if c.isDigit then digitsVal cs (acc * 10 + ((c.toNat : Int) - 48)) else acc

/-- atoi from the C library: skip leading whitespace, optional sign, then
leading digits; a token with no leading digits yields 0. -/
def atoi (s : List Char) : Int :=
  match s.dropWhile isSpaceChar with
  | '-' :: rest => - digitsVal rest 0
  | '+' :: rest => digitsVal rest 0
  | t => digitsVal t 0

/-- Decimal rendering of an Int as fprintf %d produces it. -/
def intChars (n : Int) : List Char :=
  if n < 0 then '-' :: Nat.toDigits 10 n.natAbs else Nat.toDigits 10 n.toNat

/-- matrix_dump_file from the source, with the file contents returned as a
list of lines: each row becomes one line holding every cell value rendered
with "%d " (value then one space), and the line ends with a newline. -/
def matrix_dump_file (m : Matrix) : List (List Char) :=
  (List.range m.rows).map (fun i =>
    (((List.range m.columns).map (fun j => intChars (cell m i j) ++ [' '])).flatten) ++ ['\n'])

/-- Line-skip test of the parser: strlen(line) == 0 or line[0] == newline. -/
def isBlankLine (l : List Char) : Bool :=
  l.length = 0 || l.headD ' ' = '\n'

/-- One step of the parser's first pass over a line: blank lines are
skipped; the column count is fixed by tokenizing the first non-blank line
(when the running row count is still 0); every non-blank line counts one
row. -/
def firstPassStep (st : Nat × Nat) (line : List Char) : Nat × Nat :=
  if isBlankLine line then st
  else if st.1 = 0 then (st.1 + 1, (tokens line).length)
  else (st.1 + 1, st.2)

/-- Write v into content[row][col]. -/
def set2 (content : List (List Int)) (row col : Nat) (v : Int) : List (List Int) :=
  content.set row ((content.getD row []).set col v)

/-- One iteration of the inner token loop of the parser's second pass: the
state is the running column index and the content; a token is converted
with atoi and stored only while the column index is below columns,
otherwise the token is visited but leaves the state unchanged. -/
def fillStep (columns row : Nat) (s : Nat × List (List Int)) (tok : List Char) :
    Nat × List (List Int) :=
  if s.1 < columns then (s.1 + 1, set2 s.2 row s.1 (atoi tok)) else s

/-- Inner token loop of the parser's second pass over one line: col starts
at 0 and every token of the line is visited in order. -/
def fillRow (columns row : Nat) (content : List (List Int)) (toks : List (List Char)) :
    List (List Int) :=
  (toks.foldl (fillStep columns row) (0, content)).2

/-- One step of the parser's second pass over a line: blank lines are
skipped, a non-blank line fills row number st.1 from its tokens and
increments the row counter. -/
def secondPassStep (columns : Nat) (st : Nat × List (List Int)) (line : List Char) :
    Nat × List (List Int) :=
  if isBlankLine line then st
  else (st.1 + 1, fillRow columns st.1 st.2 (tokens line))

/-- matrix_allocate_and_init_file from the source, on an already-read list
of lines (the fopen failure path and the 1024-byte fgets buffer limit are
outside the model; allocation is assumed to succeed and junk gives the
indeterminate cell contents): the first pass counts rows and fixes the
column count, then a matrix of those dimensions is allocated, then the
second pass re-reads the lines and fills one row per non-blank line. -/
def matrix_allocate_and_init_file (junk : Nat → Nat → Int) (lines : List (List Char)) :
    Matrix :=
  let fp := lines.foldl firstPassStep (0, 0)
  let content := (lines.foldl (secondPassStep fp.2) (0, mkContent fp.1 fp.2 junk)).2
  ⟨fp.1, fp.2, content⟩

/-!
Helper lemmas.
-/

/-- Reading cell (i, j) of loop-built content gives the loop body's value. -/
theorem cell_mkContent (r c : Nat) (f : Nat → Nat → Int) (i j : Nat)
    (hi : i < r) (hj : j < c) :
    cell ⟨r, c, mkContent r c f⟩ i j = f i j := by
  simp [cell, mkContent, List.getD, List.getElem?_map, List.getElem?_range, hi, hj]

theorem getD_set_self {α : Type} (l : List α) (i : Nat) (v d : α) (h : i < l.length) :
    (l.set i v).getD i d = v := by
  induction l generalizing i with
  | nil => simp at h
  | cons a as ih =>
    cases i with
    | zero => simp [List.set]
    | succ n =>
      simp only [List.set, List.getD_cons_succ]
      exact ih n (by simpa using h)

theorem getD_set_ne {α : Type} (l : List α) (i j : Nat) (v d : α) (h : i ≠ j) :
    (l.set i v).getD j d = l.getD j d := by
  induction l generalizing i j with
  | nil => simp [List.set]
  | cons a as ih =>
    cases i with
    | zero =>
      cases j with
      | zero => exact absurd rfl h
      | succ m => simp [List.set]
    | succ n =>
      cases j with
      | zero => simp [List.set]
      | succ m =>
        simp only [List.set, List.getD_cons_succ]
        exact ih n m (by omega)

/-- A left fold whose step leaves position q of the heap unchanged leaves
position q of the heap unchanged. -/
theorem foldl_heap_frame {β : Type} (q : Nat) (step : Heap → β → Heap)
    (hstep : ∀ hh x, step hh x q = hh q) :
    ∀ (l : List β) (h : Heap), (l.foldl step h) q = h q := by
  intro l
  induction l with
  | nil => intro h; rfl
  | cons x xs ih => intro h; rw [List.foldl_cons, ih, hstep]

/-- Reading any pointer other than the stored one is unchanged. -/
theorem hset_ne (h : Heap) (p : Nat) (m : Matrix) (q : Nat) (hq : q ≠ p) :
    hset h p m q = h q := by
  simp [hset, hq]

/-- A left fold whose step ignores the elements rejected by p computes the
same result on the p-filtered list. -/
theorem foldl_filter_skip {β σ : Type} (p : β → Bool) (step : σ → β → σ)
    (hskip : ∀ s b, p b = false → step s b = s) :
    ∀ (l : List β) (s : σ), l.foldl step s = (l.filter p).foldl step s := by
  intro l
  induction l with
  | nil => intro s; rfl
  | cons x xs ih =>
    intro s
    by_cases hx : p x = true
    · rw [List.foldl_cons, List.filter_cons_of_pos hx, List.foldl_cons, ih]
    · rw [List.foldl_cons, hskip s x (by simpa using hx),
        List.filter_cons_of_neg (by simpa using hx), ih]

/-- Left-fold accumulation over List.range in increasing order equals the
Finset.range sum. -/
theorem foldl_add_sum (g : Nat → Int) :
    ∀ (n : Nat) (a : Int),
      (List.range n).foldl (fun acc k => acc + g k) a = a + ∑ k ∈ Finset.range n, g k := by
  intro n
  induction n with
  | zero => intro a; simp
  | succ n ih =>
    intro a
    rw [List.range_succ, List.foldl_append, ih, Finset.sum_range_succ]
    simp [add_assoc]

/-!
Claim theorems.
-/

/-- Claim C1. The round-trip property fails on the code: matrix_dump_file
writes every value followed by a space and then a newline, so each dumped
line ends in space-newline, and the parser of
matrix_allocate_and_init_file tokenizes on spaces only, making the
trailing newline character a token of its own. Dumping the 2-by-2 matrix
[[1,2],[3,4]] and parsing the dump therefore yields the 2-by-3 matrix
[[1,2,0],[3,4,0]] (atoi on the newline token gives 0), which is not equal
to the original. -/
theorem roundtrip_dump_parse_fails :
    matrix_allocate_and_init_file (fun _ _ => 0)
        (matrix_dump_file ⟨2, 2, [[1, 2], [3, 4]]⟩)
      = ⟨2, 3, [[1, 2, 0], [3, 4, 0]]⟩ ∧
    matrix_equal
        (matrix_allocate_and_init_file (fun _ _ => 0)
          (matrix_dump_file ⟨2, 2, [[1, 2], [3, 4]]⟩))
        ⟨2, 2, [[1, 2], [3, 4]]⟩ = false := by
  decide

/-- Claim C2. The failure contract of matrix_allocate fails on the code:
the function stores the requested rows and columns into the struct before
any malloc and never resets them on failure, so after a failed
matrix_allocate of a 2-by-3 matrix the struct still reads rows 2 and
columns 3 instead of the empty state; moreover, when a row allocation
fails the row-pointer array is freed but the struct keeps the dangling
pointer, so a subsequent matrix_free frees already-freed memory (undefined
behaviour, modelled as none). -/
theorem allocate_failure_not_empty_state :
    matrix_allocate (fun _ => false) (fun _ _ => 0) 2 3 = (-1, ⟨2, 3, Ptr.null⟩) ∧
    matrix_allocate (fun k => k < 2) (fun _ _ => 0) 2 3 = (-1, ⟨2, 3, Ptr.dangling⟩) ∧
    matrix_free ⟨2, 3, Ptr.dangling⟩ = none := by
  decide

/-- Claim C3. matrix_product takes its dimension-error return exactly when
the left operand's column count differs from the right operand's row
count; on success the result has the left operand's rows and the right
operand's columns, and cell (i, j) is the sum over k of
m1[i][k] * m2[k][j] (the code accumulates it in increasing k order). -/
theorem matrix_product_spec (a b : Matrix) :
    (matrix_product a b = none ↔ a.columns ≠ b.rows) ∧
    (∀ r, matrix_product a b = some r →
      r.rows = a.rows ∧ r.columns = b.columns ∧
      ∀ i j, i < a.rows → j < b.columns →
        cell r i j = ∑ k ∈ Finset.range a.columns, cell a i k * cell b k j) := by
  constructor
  · by_cases hd : a.columns = b.rows
    · simp [matrix_product, hd]
    · simp [matrix_product, hd]
  · intro r hr
    unfold matrix_product at hr
    split at hr
    · exact absurd hr (by simp)
    · injection hr with hr
      subst hr
      refine ⟨rfl, rfl, ?_⟩
      intro i j hi hj
      rw [cell_mkContent _ _ _ i j hi hj, foldl_add_sum, zero_add]

/-- Witness for C3 at a concrete 2-by-3 times 3-by-2 product. -/
theorem matrix_product_spec_witness :
    cell ⟨2, 2, [[58, 64], [139, 154]]⟩ 0 1
      = ∑ k ∈ Finset.range 3,
          cell ⟨2, 3, [[1, 2, 3], [4, 5, 6]]⟩ 0 k
            * cell ⟨3, 2, [[7, 8], [9, 10], [11, 12]]⟩ k 1 :=
  ((matrix_product_spec ⟨2, 3, [[1, 2, 3], [4, 5, 6]]⟩
      ⟨3, 2, [[7, 8], [9, 10], [11, 12]]⟩).2
    ⟨2, 2, [[58, 64], [139, 154]]⟩ (by decide)).2.2 0 1 (by decide) (by decide)

/-- Claim C4. matrix_sum takes its dimension-error return exactly when the
operands do not have identical dimensions; on success the result has the
same dimensions and cell (i, j) is m1[i][j] + m2[i][j]. -/
theorem matrix_sum_spec (a b : Matrix) :
    (matrix_sum a b = none ↔ (a.rows ≠ b.rows ∨ a.columns ≠ b.columns)) ∧
    (∀ r, matrix_sum a b = some r →
      r.rows = a.rows ∧ r.columns = a.columns ∧
      ∀ i j, i < a.rows → j < a.columns →
        cell r i j = cell a i j + cell b i j) := by
  constructor
  · by_cases h1 : a.rows = b.rows
    · by_cases h2 : a.columns = b.columns
      · simp [matrix_sum, h1, h2]
      · simp [matrix_sum, h1, h2]
    · simp [matrix_sum, h1]
  · intro r hr
    unfold matrix_sum at hr
    split at hr
    · exact absurd hr (by simp)
    · injection hr with hr
      subst hr
      refine ⟨rfl, rfl, ?_⟩
      intro i j hi hj
      exact cell_mkContent _ _ _ i j hi hj

/-- Witness for C4 at a concrete 2-by-2 sum. -/
theorem matrix_sum_spec_witness :
    cell ⟨2, 2, [[11, 22], [33, 44]]⟩ 1 0
      = cell ⟨2, 2, [[1, 2], [3, 4]]⟩ 1 0 + cell ⟨2, 2, [[10, 20], [30, 40]]⟩ 1 0 :=
  ((matrix_sum_spec ⟨2, 2, [[1, 2], [3, 4]]⟩ ⟨2, 2, [[10, 20], [30, 40]]⟩).2
    ⟨2, 2, [[11, 22], [33, 44]]⟩ (by decide)).2.2 1 0 (by decide) (by decide)

/-- Claim C5. Transposing twice gives a matrix that matrix_equal accepts as
equal to the original: the double transposition restores the dimensions,
and every cell inside them is restored. -/
theorem matrix_transposition_involution (m : Matrix) :
    matrix_equal (matrix_transposition (matrix_transposition m)) m = true := by
  unfold matrix_equal matrix_transposition
  rw [if_neg (by simp)]
  rw [List.all_eq_true]
  intro i hi
  rw [List.all_eq_true]
  intro j hj
  have hi' : i < m.rows := List.mem_range.mp hi
  have hj' : j < m.columns := List.mem_range.mp hj
  rw [beq_iff_eq]
  rw [cell_mkContent _ _ _ i j hi' hj', cell_mkContent _ _ _ j i hj' hi']

/-- Skipped lines are no-ops of the first pass. -/
theorem firstPassStep_blank (s : Nat × Nat) (b : List Char)
    (hb : (!(isBlankLine b)) = false) : firstPassStep s b = s := by
  have h : isBlankLine b = true := by simpa using hb
  simp [firstPassStep, h]

/-- Skipped lines are no-ops of the second pass. -/
theorem secondPassStep_blank (c : Nat) (s : Nat × List (List Int)) (b : List Char)
    (hb : (!(isBlankLine b)) = false) : secondPassStep c s b = s := by
  have h : isBlankLine b = true := by simpa using hb
  simp [secondPassStep, h]

/-- Claim C7. The parser computes the very same matrix on an input with its
blank lines removed: both passes skip exactly the lines the blank-line
test accepts, so inserting blank lines anywhere between data rows changes
neither the inferred dimensions nor any parsed cell. -/
theorem parse_ignores_blank_lines (junk : Nat → Nat → Int) (lines : List (List Char)) :
    matrix_allocate_and_init_file junk lines
      = matrix_allocate_and_init_file junk
          (lines.filter (fun l => !(isBlankLine l))) := by
  simp only [matrix_allocate_and_init_file]
  rw [foldl_filter_skip (fun l => !(isBlankLine l)) firstPassStep firstPassStep_blank lines]
  rw [foldl_filter_skip (fun l => !(isBlankLine l)) (secondPassStep _)
    (secondPassStep_blank _) lines]

/-- The inner token loop from column counter c only consumes the first
columns - c tokens; every later token leaves the state unchanged. -/
theorem fillStep_foldl_take (columns row : Nat) :
    ∀ (toks : List (List Char)) (c : Nat) (content : List (List Int)),
      toks.foldl (fillStep columns row) (c, content)
        = (toks.take (columns - c)).foldl (fillStep columns row) (c, content) := by
  intro toks
  induction toks with
  | nil => intro c content; simp
  | cons t ts ih =>
    intro c content
    by_cases hc : c < columns
    · have hsub : columns - c = (columns - (c + 1)) + 1 := by omega
      rw [hsub, List.take_succ_cons, List.foldl_cons, List.foldl_cons]
      have hstep : fillStep columns row (c, content) t
          = (c + 1, set2 content row c (atoi t)) := by
        simp [fillStep, hc]
      rw [hstep, ih]
    · have hsub : columns - c = 0 := by omega
      have hstep : fillStep columns row (c, content) t = (c, content) := by
        simp [fillStep, hc]
      rw [hsub, List.take_zero, List.foldl_nil, List.foldl_cons, hstep, ih]
      rw [hsub, List.take_zero, List.foldl_nil]

/-- Claim C8. In the parser's second pass a line fills at most columns
cells: the filled row is the same whether the token loop sees the whole
token list or only its first columns tokens, so tokens beyond columns are
silently ignored (and the pass has no failure path at all). -/
theorem parse_ignores_extra_tokens (columns row : Nat) (content : List (List Int))
    (toks : List (List Char)) :
    fillRow columns row content toks = fillRow columns row content (toks.take columns) := by
  unfold fillRow
  rw [fillStep_foldl_take columns row toks 0 content]
  simp

/-- Heap fixture shared by the pointer-level witnesses. -/
def testHeap : Heap := fun q =>
  if q = 0 then ⟨2, 3, [[1, 2, 3], [4, 5, 6]]⟩
  else if q = 1 then ⟨3, 2, [[7, 8], [9, 10], [11, 12]]⟩
  else ⟨0, 0, []⟩

/-- Claim C9. Every store of the four arithmetic operations goes through
the result pointer: at any pointer other than the result slot the heap is
unchanged, so operand matrices distinct from the result slot keep their
dimensions and every element. -/
theorem arithmetic_preserves_operands (junk : Nat → Nat → Int) (h : Heap)
    (p1 p2 pr q : Nat) (s : Int) (hq : q ≠ pr) :
    (matrix_sum_h junk h p1 p2 pr).2 q = h q ∧
    (matrix_scalar_product_h junk h p1 s pr).2 q = h q ∧
    (matrix_transposition_h junk h p1 pr).2 q = h q ∧
    (matrix_product_h junk h p1 p2 pr).2 q = h q := by
  refine ⟨?_, ?_, ?_, ?_⟩
  · unfold matrix_sum_h
    split
    · rfl
    · simp only
      rw [foldl_heap_frame q _ (fun hh i =>
          foldl_heap_frame q _ (fun hh2 j => hset_ne _ _ _ _ hq) _ hh)]
      exact hset_ne _ _ _ _ hq
  · unfold matrix_scalar_product_h
    simp only
    rw [foldl_heap_frame q _ (fun hh i =>
        foldl_heap_frame q _ (fun hh2 j => hset_ne _ _ _ _ hq) _ hh)]
    exact hset_ne _ _ _ _ hq
  · unfold matrix_transposition_h
    simp only
    rw [foldl_heap_frame q _ (fun hh i =>
        foldl_heap_frame q _ (fun hh2 j => hset_ne _ _ _ _ hq) _ hh)]
    exact hset_ne _ _ _ _ hq
  · unfold matrix_product_h
    split
    · rfl
    · simp only
      rw [foldl_heap_frame q _ (fun hh i =>
          foldl_heap_frame q _ (fun hh2 j => ?_) _ hh)]
      · exact hset_ne _ _ _ _ hq
      · rw [foldl_heap_frame q _ (fun hh3 k => hset_ne _ _ _ _ hq)]
        exact hset_ne _ _ _ _ hq

/-- Witness for C9 on a concrete heap, with operands at pointers 0 and 1,
the result slot at pointer 2 and the observed pointer at 0. -/
theorem arithmetic_preserves_operands_witness :
    (matrix_sum_h (fun _ _ => 0) testHeap 0 1 2).2 0 = testHeap 0 ∧
    (matrix_scalar_product_h (fun _ _ => 0) testHeap 0 5 2).2 0 = testHeap 0 ∧
    (matrix_transposition_h (fun _ _ => 0) testHeap 0 2).2 0 = testHeap 0 ∧
    (matrix_product_h (fun _ _ => 0) testHeap 0 1 2).2 0 = testHeap 0 :=
  arithmetic_preserves_operands (fun _ _ => 0) testHeap 0 1 2 0 5 (by decide)

/-- Claim C10. Each precondition check precedes every write: a non-square
matrix_init_identity, a matrix_init_rand with min above max, and a
matrix_sum or matrix_product with mismatched dimensions all return -1 with
the whole heap (every matrix argument, result slot included) untouched. -/
theorem checks_precede_writes (junk : Nat → Nat → Int) (rand : Nat → Nat)
    (h : Heap) (p p1 p2 pr : Nat) (mn mx : Int) :
    ((h p).rows ≠ (h p).columns → matrix_init_identity_h h p = (-1, h)) ∧
    (mn > mx → matrix_init_rand_h rand h p mn mx = (-1, h)) ∧
    ((h p1).rows ≠ (h p2).rows ∨ (h p1).columns ≠ (h p2).columns →
      matrix_sum_h junk h p1 p2 pr = (-1, h)) ∧
    ((h p1).columns ≠ (h p2).rows → matrix_product_h junk h p1 p2 pr = (-1, h)) := by
  refine ⟨?_, ?_, ?_, ?_⟩
  · intro hne
    simp [matrix_init_identity_h, hne]
  · intro hgt
    simp [matrix_init_rand_h, hgt]
  · intro hor
    rcases hor with h1 | h1
    · simp [matrix_sum_h, h1]
    · simp [matrix_sum_h, h1]
  · intro hne
    simp [matrix_product_h, hne]

/-- Witness for C10 on the concrete heap fixture: the 2-by-3 matrix at
pointer 0 is not square, 5 > 3 is an invalid random range, the matrices at
pointers 0 and 1 have mismatched dimensions for matrix_sum, and the matrix
at pointer 0 has a column count differing from its own row count for
matrix_product. -/
theorem checks_precede_writes_witness :
    matrix_init_identity_h testHeap 0 = (-1, testHeap) ∧
    matrix_init_rand_h (fun _ => 0) testHeap 0 5 3 = (-1, testHeap) ∧
    matrix_sum_h (fun _ _ => 0) testHeap 0 1 2 = (-1, testHeap) ∧
    matrix_product_h (fun _ _ => 0) testHeap 0 0 2 = (-1, testHeap) :=
  ⟨(checks_precede_writes (fun _ _ => 0) (fun _ => 0) testHeap 0 0 1 2 5 3).1 (by decide),
   (checks_precede_writes (fun _ _ => 0) (fun _ => 0) testHeap 0 0 1 2 5 3).2.1 (by decide),
   (checks_precede_writes (fun _ _ => 0) (fun _ => 0) testHeap 0 0 1 2 5 3).2.2.1
     (Or.inl (by decide)),
   (checks_precede_writes (fun _ _ => 0) (fun _ => 0) testHeap 0 0 0 2 5 3).2.2.2 (by decide)⟩

/-- Row q of loop-built content. -/
theorem mkContent_getD (r c : Nat) (f : Nat → Nat → Int) (q : Nat) (hq : q < r) :
    (mkContent r c f).getD q [] = (List.range c).map (f q) := by
  simp [mkContent, List.getD, List.getElem?_map, List.getElem?_range, hq]

theorem setCell_rows (M : Matrix) (i j : Nat) (v : Int) :
    (setCell M i j v).rows = M.rows := rfl

theorem setCell_columns (M : Matrix) (i j : Nat) (v : Int) :
    (setCell M i j v).columns = M.columns := rfl

theorem setCell_content_length (M : Matrix) (i j : Nat) (v : Int) :
    (setCell M i j v).content.length = M.content.length := by
  simp [setCell]

theorem cell_setCell_diag (M : Matrix) (n : Nat) (v : Int)
    (h1 : n < M.content.length) (h2 : n < (M.content.getD n []).length) :
    cell (setCell M n n v) n n = v := by
  simp only [cell, setCell]
  rw [getD_set_self _ _ _ _ h1, getD_set_self _ _ _ _ h2]

theorem cell_setCell_ne_col (M : Matrix) (n j : Nat) (v : Int)
    (h1 : n < M.content.length) (hj : j ≠ n) :
    cell (setCell M n n v) n j = cell M n j := by
  simp only [cell, setCell]
  rw [getD_set_self _ _ _ _ h1, getD_set_ne _ _ _ _ _ (fun hh => hj hh.symm)]

theorem cell_setCell_ne_row (M : Matrix) (n i j : Nat) (v : Int) (hi : i ≠ n) :
    cell (setCell M n n v) i j = cell M i j := by
  simp only [cell, setCell]
  rw [getD_set_ne _ _ _ _ _ (fun hh => hi hh.symm)]

/-- Unrolling the last diagonal write. -/
theorem diagFold_succ (m : Matrix) (n : Nat) :
    diagFold m (n + 1) = setCell (diagFold m n) n n 1 := by
  unfold diagFold
  rw [List.range_succ, List.foldl_append, List.foldl_cons, List.foldl_nil]

/-- Shape and cells of the diagonal loop after its first n iterations: the
dimensions and the content shape stay those of the zeroed matrix, and cell
(i, j) is 1 exactly on the already visited diagonal. -/
theorem diagFold_spec (m : Matrix) (hsq : m.rows = m.columns) :
    ∀ n, n ≤ m.rows →
      (diagFold m n).rows = m.rows ∧
      (diagFold m n).columns = m.columns ∧
      (diagFold m n).content.length = m.rows ∧
      (∀ q, q < m.rows → ((diagFold m n).content.getD q []).length = m.columns) ∧
      (∀ i j, i < m.rows → j < m.columns →
        cell (diagFold m n) i j = if i = j ∧ i < n then 1 else 0) := by
  intro n
  induction n with
  | zero =>
    intro _
    refine ⟨rfl, rfl, ?_, ?_, ?_⟩
    · simp [diagFold, matrix_init_zeros, matrix_init_n, mkContent]
    · intro q hq
      have hz : (diagFold m 0).content = mkContent m.rows m.columns (fun _ _ => 0) := rfl
      rw [hz, mkContent_getD _ _ _ q hq]
      simp
    · intro i j hi hj
      have hz : diagFold m 0
          = ⟨m.rows, m.columns, mkContent m.rows m.columns (fun _ _ => 0)⟩ := rfl
      rw [hz, cell_mkContent _ _ _ i j hi hj]
      simp
  | succ n ih =>
    intro hn1
    have hn : n ≤ m.rows := by omega
    have hnlt : n < m.rows := by omega
    obtain ⟨hr, hc, hlen, hrowlen, hcell⟩ := ih hn
    have hlen' : n < (diagFold m n).content.length := by rw [hlen]; exact hnlt
    have hrow' : n < ((diagFold m n).content.getD n []).length := by
      rw [hrowlen n hnlt]; omega
    refine ⟨?_, ?_, ?_, ?_, ?_⟩
    · rw [diagFold_succ, setCell_rows, hr]
    · rw [diagFold_succ, setCell_columns, hc]
    · rw [diagFold_succ, setCell_content_length, hlen]
    · intro q hq
      rw [diagFold_succ]
      by_cases hqn : q = n
      · subst hqn
        simp only [setCell]
        rw [getD_set_self _ _ _ _ hlen']
        rw [List.length_set, hrowlen q hq]
      · simp only [setCell]
        rw [getD_set_ne _ _ _ _ _ (fun hh => hqn hh.symm), hrowlen q hq]
    · intro i j hi hj
      rw [diagFold_succ]
      by_cases hin : i = n
      · subst hin
        by_cases hjn : j = i
        · subst hjn
          rw [cell_setCell_diag _ _ _ hlen' hrow']
          rw [if_pos ⟨rfl, by omega⟩]
        · rw [cell_setCell_ne_col _ _ _ _ hlen' (fun hh => hjn hh)]
          rw [hcell i j hi hj]
          rw [if_neg (fun hh => by omega), if_neg (fun hh => hjn hh.1.symm)]
      · rw [cell_setCell_ne_row _ _ _ _ _ hin]
        rw [hcell i j hi hj]
        by_cases hij : i = j
        · subst hij
          by_cases hlt : i < n
          · rw [if_pos ⟨rfl, hlt⟩, if_pos ⟨rfl, by omega⟩]
          · rw [if_neg (fun hh => hlt hh.2), if_neg (fun hh => absurd hh.2 (by omega))]
        · rw [if_neg (fun hh => hij hh.1), if_neg (fun hh => hij hh.1)]

/-- Claim C6. matrix_init_identity succeeds (returns 0) exactly on square
matrices, and on a square matrix every cell inside the dimensions becomes
0 except the diagonal cells, which become 1. -/
theorem matrix_init_identity_spec (m : Matrix) :
    ((matrix_init_identity m).1 = 0 ↔ m.rows = m.columns) ∧
    (m.rows = m.columns →
      ∀ i j, i < m.rows → j < m.columns →
        cell (matrix_init_identity m).2 i j = if i = j then (1 : Int) else 0) := by
  constructor
  · by_cases hsq : m.rows = m.columns
    · simp [matrix_init_identity, hsq]
    · simp [matrix_init_identity, hsq]
  · intro hsq i j hi hj
    have hm : matrix_init_identity m = (0, diagFold m m.rows) := by
      simp [matrix_init_identity, hsq]
    rw [hm]
    obtain ⟨_, _, _, _, hcell⟩ := diagFold_spec m hsq m.rows (le_refl _)
    rw [hcell i j hi hj]
    by_cases hij : i = j
    · rw [if_pos ⟨hij, hi⟩, if_pos hij]
    · rw [if_neg (fun hh => hij hh.1), if_neg hij]

/-- Witness for C6 on a concrete 2-by-2 matrix. -/
theorem matrix_init_identity_spec_witness :
    ((matrix_init_identity ⟨2, 2, [[5, 6], [7, 8]]⟩).1 = 0 ↔ (2 : Nat) = 2) ∧
    cell (matrix_init_identity ⟨2, 2, [[5, 6], [7, 8]]⟩).2 0 1
      = if (0 : Nat) = 1 then (1 : Int) else 0 :=
  ⟨(matrix_init_identity_spec ⟨2, 2, [[5, 6], [7, 8]]⟩).1,
   (matrix_init_identity_spec ⟨2, 2, [[5, 6], [7, 8]]⟩).2 rfl 0 1 (by decide) (by decide)⟩

end MatrixC
